import Mathlib

/-!
Shallow embedding of `src/menu.rs` (blockmod's menu subsystem): the menu
template model, the template resolver (`MenuButtonsBuilder::build`,
`MenuBuilder::build`), the navigation stack maintained by `init_menu` and
`term_menu` over the `MenuEs` resource, and the `button_action` dispatcher.

Modelling conventions:
  * A filesystem path (`std::path::Path`) is a list of already-normalized
    components (`PathC`).  `Path::join` with a relative argument appends
    components; `Path::file_name` is the last component, or nothing when the
    path is empty or terminates in the parent component "..".
  * `AssetServer::asset_io().read_directory` is an abstract enumeration
    source `AssetIo : PathC → Option (List PathC)`; `none` models the
    `Err(_)` result that `unwrap_or_else` replaces with an empty iterator.
  * A Rust panic (a failing `unwrap`) is modelled by an `Option`-valued
    function returning `none`: the aborted computation applies no mutation.
  * Bevy entities are natural-number ids; a spawned menu screen is recorded
    as a pair `(id, visible)` where `visible` mirrors `Style.display`
    (`true` = `Display::Flex`, `false` = `Display::None`).
-/

namespace Blockmod

/-- Path components of an already-normalized relative `std::path::Path`. -/
abbrev PathC := List String

/-- `Path::join` for a relative right operand: append the components. -/
def path_join (a b : PathC) : PathC := a ++ b

/-- `Path::file_name`: the last component, or `none` when the path is empty
or terminates in `..`. -/
def file_name (p : PathC) : Option String :=
  match p.getLast? with
  | none => none
  | some c => if c = ".." then none else some c

/-- The enumeration source: `read_directory` of the asset server's
`AssetIo`.  `none` is the `Err` case of the Rust `Result`. -/
abbrev AssetIo := PathC → Option (List PathC)

/-- `MenuTitleSize` from `menu.rs`. -/
inductive MenuTitleSize where
  | MainTitle
  | Normal
deriving DecidableEq

/-- `MenuTitle` from `menu.rs`. -/
structure MenuTitle where
  text : String
  size : MenuTitleSize
deriving DecidableEq

/-- `AssetButtonAction` from `menu.rs`. -/
inductive AssetButtonAction where
  | CreateWorld
  | Play
deriving DecidableEq

mutual

/-- The `Action` component from `menu.rs`. -/
inductive Action where
  | Menu (menu : MenuBuilder)
  | Back
  | Rebuild
  | ImportGame
  | CreateWorld (path : PathC)
  | Play (path : PathC)
  | Set (actions : List Action)

/-- `MenuButton` from `menu.rs`: button text plus its bound `Action`. -/
inductive MenuButton where
  | mk (text : String) (action : Action)

/-- `MenuButtonsBuilder` from `menu.rs`: a literal row of buttons, or a
per-asset generator. -/
inductive MenuButtonsBuilder where
  | Row (row : List MenuButton)
  | PerAsset (action : AssetButtonAction)

/-- `MenuBuilder` from `menu.rs`: a title plus the ordered button groups. -/
inductive MenuBuilder where
  | mk (title : MenuTitle) (buttons : List MenuButtonsBuilder)

end

/-- A resolved row of buttons (`MenuButtonRow` from `menu.rs`). -/
abbrev MenuButtonRow := List MenuButton

/-- `AssetButtonAction::assets_path` from `menu.rs`. -/
def AssetButtonAction.assets_path : AssetButtonAction → PathC
  | .CreateWorld => ["games"]
  | .Play => ["worlds"]

/-- `AssetButtonAction::action` from `menu.rs`: join `assets_path` with the
given path and wrap it in the matching `Action` variant. -/
def AssetButtonAction.action (a : AssetButtonAction) (path : PathC) : Action :=
  let p := path_join a.assets_path path
  match a with
  | .CreateWorld => Action.CreateWorld p
  | .Play => Action.Play p

/-- Map an `Option`-valued function over a list, failing when any element
fails.  This is the effect of the Rust iterator chains in `menu.rs` whose
per-element closures can panic: the first failing element aborts the whole
computation. -/
def optionMapList (f : α → Option β) : List α → Option (List β)
  | [] => some []
  | a :: rest =>
    match f a, optionMapList f rest with
    | some b, some bs => some (b :: bs)
    | _, _ => none

/-- `MenuButtonsBuilder::build` from `menu.rs`.  A `Row` yields its literal
row; `PerAsset` reads the directory (an `Err` is replaced by an empty
listing), then turns every yielded path into a single-button row whose text
is the path's file name (`none` models the `file_name().unwrap()` panic) and
whose action is `action.action(&path)`. -/
def MenuButtonsBuilder.build (io : AssetIo) : MenuButtonsBuilder → Option (List MenuButtonRow)
  | .Row row => some [row]
  | .PerAsset action =>
    optionMapList
      (fun path =>
        (file_name path).map fun name => [MenuButton.mk name (action.action path)])
      ((io action.assets_path).getD [])

/-- The resolved `Menu` from `menu.rs`. -/
structure Menu where
  title : MenuTitle
  buttons : List MenuButtonRow

/-- `MenuBuilder::build` from `menu.rs`: build every group and flatten the
resulting rows in group order (`flat_map`). -/
def MenuBuilder.build (io : AssetIo) : MenuBuilder → Option Menu
  | .mk title buttons =>
    (optionMapList (MenuButtonsBuilder.build io) buttons).map fun built =>
      ⟨title, built.flatten⟩

/-- Number of `read_directory` invocations `MenuButtonsBuilder::build`
performs: the call appears only in the `PerAsset` arm, exactly once. -/
def MenuButtonsBuilder.readDirCalls : MenuButtonsBuilder → Nat
  | .Row _ => 0
  | .PerAsset _ => 1

/-- Number of `read_directory` invocations `MenuBuilder::build` performs:
one per `PerAsset` group. -/
def MenuBuilder.readDirCalls : MenuBuilder → Nat
  | .mk _ buttons => (buttons.map MenuButtonsBuilder.readDirCalls).sum

/-! ## Navigation stack

`init_menu` runs on entering `GameState::Menu` (covering both the `Enter`
and `Push` transitions of the spec) and `term_menu` on exiting it (the `Pop`
transition).  The world state they touch is modelled explicitly: the set of
live screen entities with their visibility, and the `MenuEs` resource. -/

/-- `GameState` from `crate::state` (the variants used by `menu.rs`). -/
inductive GameState where
  | MainMenu
  | Menu
  | Buffer
  | Game
deriving DecidableEq

/-- The slice of the Bevy world that `init_menu` / `term_menu` mutate:
`nextId` generates fresh entity ids, `screens` lists the live menu screen
entities in spawn order together with their visibility (`Style.display`),
and `menuEs` is the optional `MenuEs` resource (the stack of screen
entities, bottom to top). -/
structure NavState where
  nextId : Nat
  screens : List (Nat × Bool)
  menuEs : Option (List Nat)
deriving DecidableEq

/-- The presentation-layer side effects a transition performs, in order. -/
inductive UiEffect where
  | spawn (e : Nat)
  | hide (e : Nat)
  | reveal (e : Nat)
  | despawn (e : Nat)
deriving DecidableEq

/-- `nodes.get_mut(e).unwrap().display = d`: set the visibility of the
first screen with id `e`; `none` models the `unwrap` panic when no such
entity is live. -/
def setVis (e : Nat) (b : Bool) : List (Nat × Bool) → Option (List (Nat × Bool))
  | [] => none
  | p :: rest =>
    if p.1 = e then some ((e, b) :: rest)
    else (setVis e b rest).map (p :: ·)

/-- `commands.entity(e).despawn_recursive()`: remove the first screen with
id `e`; `none` models the panic on a missing entity. -/
def removeScreen (e : Nat) : List (Nat × Bool) → Option (List (Nat × Bool))
  | [] => none
  | p :: rest =>
    if p.1 = e then some rest
    else (removeScreen e rest).map (p :: ·)

/-- `init_menu` from `menu.rs`, run with `NextMenu` holding `m`: build the
menu (a failing build panics before any mutation), spawn its screen (new
entities start visible), then either hide the previous top and push the new
entity onto `MenuEs`, or create `MenuEs` with the single new entity.  The
returned effects record the presentation calls in program order. -/
def init_menu (io : AssetIo) (m : MenuBuilder) (s : NavState) :
    Option (NavState × List UiEffect) :=
  match MenuBuilder.build io m with
  | none => none
  | some _menu =>
    let e := s.nextId
    let spawned := s.screens ++ [(e, true)]
    match s.menuEs with
    | some es =>
      match es.getLast? with
      | none => none
      | some top =>
        match setVis top false spawned with
        | none => none
        | some hidden =>
          some (⟨s.nextId + 1, hidden, some (es ++ [e])⟩,
            [UiEffect.spawn e, UiEffect.hide top])
    | none =>
      some (⟨s.nextId + 1, spawned, some [e]⟩, [UiEffect.spawn e])

/-- `term_menu` from `menu.rs`: pop the top entity off `MenuEs` (panics when
the resource is absent or empty), despawn it, then reveal the new top when
one remains, or remove the `MenuEs` resource when the stack became empty. -/
def term_menu (s : NavState) : Option (NavState × List UiEffect) :=
  match s.menuEs with
  | none => none
  | some es =>
    match es.getLast? with
    | none => none
    | some top =>
      match removeScreen top s.screens with
      | none => none
      | some removed =>
        let rest := es.dropLast
        match rest.getLast? with
        | some top2 =>
          match setVis top2 true removed with
          | none => none
          | some shown =>
            some (⟨s.nextId, shown, some rest⟩,
              [UiEffect.despawn top, UiEffect.reveal top2])
        | none =>
          some (⟨s.nextId, removed, none⟩, [UiEffect.despawn top])

/-- One navigation transition: `init` is an `on_enter(GameState::Menu)` run
of `init_menu` (an `Enter` when `MenuEs` is absent, a `Push` otherwise) and
`term` is an `on_exit(GameState::Menu)` run of `term_menu` (a `Pop`). -/
inductive NavOp where
  | init (m : MenuBuilder)
  | term

/-- Apply one navigation transition, dropping the effect trace. -/
def stepOp (io : AssetIo) (s : NavState) : NavOp → Option NavState
  | .init m => (init_menu io m s).map Prod.fst
  | .term => (term_menu s).map Prod.fst

/-- Apply a sequence of navigation transitions. -/
def runOps (io : AssetIo) : List NavOp → NavState → Option NavState
  | [], s => some s
  | op :: ops, s => (stepOp io s op).bind (runOps io ops)

/-- The world before the menu subsystem ever ran: no screen entity, no
`MenuEs` resource. -/
def navInit : NavState := ⟨0, [], none⟩

/-! ## Interaction dispatcher (`button_action`) -/

/-- Bevy's `Interaction` component. -/
inductive Interaction where
  | Clicked
  | Hovered
  | None
deriving DecidableEq

/-- The three button colors `button_action` writes to `UiColor`. -/
inductive ButtonColor where
  | Press
  | Hover
  | Normal
deriving DecidableEq

/-- A requested `State<GameState>` operation. -/
inductive StateOp where
  | push (g : GameState)
  | pop
  | replace (g : GameState)
deriving DecidableEq

/-- Everything one `button_action` iteration does for one button: the
`UiColor` it writes, the resources it inserts, and the state operation it
requests. -/
structure DispatchOut where
  color : ButtonColor
  insertNextMenu : Option MenuBuilder := none
  insertBufferedState : Option GameState := none
  insertOpeningGame : Bool := false
  stateOp : Option StateOp := none

/-- `button_action` from `menu.rs`, for a single button that passed the
`Changed<Interaction>` filter: on `Clicked`, dispatch on the bound `Action`
(the source's `_ => ()` TODO arm covers `Rebuild`, `ImportGame`,
`CreateWorld` and `Set`, performing no effect) and paint the press color;
on `Hovered` / `None` only repaint. -/
def button_action (i : Interaction) (a : Action) : DispatchOut :=
  match i with
  | .Clicked =>
    match a with
    | .Menu m =>
      { color := ButtonColor.Press, insertBufferedState := some GameState.Menu,
        insertNextMenu := some m, stateOp := some (StateOp.push GameState.Buffer) }
    | .Back => { color := ButtonColor.Press, stateOp := some StateOp.pop }
    | .Play _ =>
      { color := ButtonColor.Press, insertOpeningGame := true,
        stateOp := some (StateOp.replace GameState.Game) }
    | _ => { color := ButtonColor.Press }
  | .Hovered => { color := ButtonColor.Hover }
  | .None => { color := ButtonColor.Normal }

/-- Modelled from the spec and Bevy's documented change detection (the
`state.rs` / engine side is not in `src/`): the `Changed<Interaction>`
filter on `button_action`'s query admits a button only when its
`Interaction` value differs from the value the system last observed; a
freshly inserted component counts as changed. -/
def changedGate (prev : Option Interaction) (cur : Interaction) : Bool :=
  decide (prev ≠ some cur)

/-- How many times `button_action` dispatches a button's `Clicked` arm over
a sequence of ticks, given the `Interaction` value observed before the
first tick (`none` when the button was just spawned): a tick dispatches
exactly when the value changed and is `Clicked`. -/
def clickDispatches : Option Interaction → List Interaction → Nat
  | _, [] => 0
  | prev, c :: rest =>
    (if changedGate prev c ∧ c = Interaction.Clicked then 1 else 0) +
      clickDispatches (some c) rest

/-- Modelled from the spec (§4.4 `ReplaceContext`; the buffered-state logic
lives in the missing `state.rs`): `state.replace(GameState::Game)` pops
every stacked `GameState::Menu`, and each pop fires `on_exit(Menu)`, running
`term_menu` once — once per `MenuEs` entry. -/
def termIter : Nat → NavState → Option NavState
  | 0, s => some s
  | n + 1, s => ((term_menu s).map Prod.fst).bind (termIter n)

/-- The navigation effect of `Action::Play`'s `state.replace`: run
`term_menu` once per entry of the `MenuEs` stack. -/
def replaceContext (s : NavState) : Option NavState :=
  match s.menuEs with
  | none => none
  | some es => termIter es.length s

/-! ## The stack invariant maintained by `init_menu` / `term_menu` -/

/-- The visibility pattern of a live screen list: nonempty, every screen
hidden except the last, which is visible. -/
def visShape : List (Nat × Bool) → Bool
  | [] => false
  | [p] => p.2
  | p :: rest => !p.2 && visShape rest

/-- Invariant of the menu navigation state: live screen ids are below the
id counter and distinct; when the `MenuEs` resource exists it lists exactly
the live screens in order and only the last is visible; when it does not,
no screen is live.  Stated with decidable conjuncts so it can be evaluated
on concrete states. -/
def Inv (s : NavState) : Prop :=
  (∀ p ∈ s.screens, p.1 < s.nextId) ∧
  (s.screens.map Prod.fst).Nodup ∧
  (s.menuEs = some (s.screens.map Prod.fst) ∨ (s.menuEs = none ∧ s.screens = [])) ∧
  (s.menuEs.isSome = true → visShape s.screens = true)

instance (s : NavState) : Decidable (Inv s) :=
  inferInstanceAs (Decidable (_ ∧ _ ∧ _ ∧ _))

/-! ## Concrete inputs used to evaluate the development -/

/-- A minimal literal template: a title and no button groups. -/
def mRoot : MenuBuilder := .mk ⟨"voxmod", .MainTitle⟩ []

/-- A template holding one generator group for worlds. -/
def mWorlds : MenuBuilder := .mk ⟨"Choose a world", .Normal⟩ [.PerAsset .Play]

/-- An enumeration source that always fails (missing directory). -/
def ioFail : AssetIo := fun _ => none

/-- An enumeration source that always yields an empty listing. -/
def ioEmpty : AssetIo := fun _ => some []

/-- An enumeration source yielding the single path `worlds/alpha` — what
Bevy's `read_directory` actually yields: paths relative to the asset root,
still carrying the directory prefix. -/
def ioNested : AssetIo := fun _ => some [["worlds", "alpha"]]

/-- An enumeration source yielding the single path `..`, which has no file
name component. -/
def ioDotDot : AssetIo := fun _ => some [[".."]]

/-- The navigation state after two pushes: screen 0 hidden under the
visible screen 1. -/
def sDepth2 : NavState := ⟨2, [(0, false), (1, true)], some [0, 1]⟩

/-! ## Resolver lemmas -/

lemma optionMapList_cons (f : α → Option β) (a : α) (l : List α) :
    optionMapList f (a :: l) =
      match f a, optionMapList f l with
      | some b, some bs => some (b :: bs)
      | _, _ => none := rfl

lemma optionMapList_append (f : α → Option β) (l1 l2 : List α) :
    optionMapList f (l1 ++ l2) =
      match optionMapList f l1, optionMapList f l2 with
      | some b1, some b2 => some (b1 ++ b2)
      | _, _ => none := by
  induction l1 with
  | nil =>
    simp only [List.nil_append]
    cases optionMapList f l2 <;> rfl
  | cons a l ih =>
    rw [List.cons_append]
    simp only [optionMapList_cons, ih]
    cases f a <;> cases optionMapList f l <;> cases optionMapList f l2 <;> rfl

lemma optionMapList_rows (io : AssetIo) (rows : List MenuButtonRow) :
    optionMapList (MenuButtonsBuilder.build io) (rows.map MenuButtonsBuilder.Row)
      = some (rows.map fun r => [r]) := by
  induction rows with
  | nil => rfl
  | cons r rows ih => simp [optionMapList, MenuButtonsBuilder.build, ih]

lemma flatten_singletons (rows : List MenuButtonRow) :
    (rows.map fun r => [r]).flatten = rows := by
  induction rows with
  | nil => rfl
  | cons r rows ih => simp [ih]

lemma optionMapList_isSome (f : α → Option β) (l : List α)
    (h : ∀ a ∈ l, (f a).isSome = true) : (optionMapList f l).isSome = true := by
  induction l with
  | nil => rfl
  | cons a l ih =>
    obtain ⟨b, hb⟩ := Option.isSome_iff_exists.mp (h a (by simp))
    obtain ⟨bs, hbs⟩ :=
      Option.isSome_iff_exists.mp (ih fun x hx => h x (by simp [hx]))
    simp [optionMapList, hb, hbs]

lemma optionMapList_none (f : α → Option β) (l : List α) (a : α)
    (ha : a ∈ l) (hfa : f a = none) : optionMapList f l = none := by
  induction l with
  | nil => simp at ha
  | cons b l ih =>
    rcases List.mem_cons.mp ha with rfl | h2
    · simp [optionMapList, hfa]
    · cases hfb : f b <;> simp [optionMapList, hfb, ih h2]

/-- C1: a template whose groups are all `Fixed` (`MenuButtonsBuilder::Row`)
resolves, under every enumeration source, to exactly its literal rows in
order — one row per group, buttons untouched — and `build` performs zero
`read_directory` invocations. -/
theorem c1_fixed_groups_literal (io : AssetIo) (title : MenuTitle)
    (rows : List MenuButtonRow) :
    MenuBuilder.build io (.mk title (rows.map MenuButtonsBuilder.Row))
      = some ⟨title, rows⟩ ∧
    MenuBuilder.readDirCalls (.mk title (rows.map MenuButtonsBuilder.Row)) = 0 := by
  constructor
  · simp [MenuBuilder.build, optionMapList_rows, flatten_singletons]
  · simp only [MenuBuilder.readDirCalls, List.map_map]
    refine List.sum_eq_zero fun x hx => ?_
    obtain ⟨r, _, rfl⟩ := List.mem_map.mp hx
    rfl

/-- C2: when the enumeration source fails for a `PerAsset` group, that
group resolves to zero rows rather than an error, and the whole template
resolves exactly as if the group were absent — sibling groups are
unaffected. -/
theorem c2_enumeration_failure_absorbed (a : AssetButtonAction) (io : AssetIo)
    (title : MenuTitle) (pre post : List MenuButtonsBuilder)
    (h : io a.assets_path = none) :
    MenuButtonsBuilder.build io (.PerAsset a) = some [] ∧
    MenuBuilder.build io (.mk title (pre ++ MenuButtonsBuilder.PerAsset a :: post))
      = MenuBuilder.build io (.mk title (pre ++ post)) := by
  have hgroup : MenuButtonsBuilder.build io (.PerAsset a) = some [] := by
    simp [MenuButtonsBuilder.build, h, optionMapList]
  refine ⟨hgroup, ?_⟩
  have hsplit : (MenuButtonsBuilder.PerAsset a :: post : List MenuButtonsBuilder)
      = [MenuButtonsBuilder.PerAsset a] ++ post := rfl
  have h1 : optionMapList (MenuButtonsBuilder.build io)
      [MenuButtonsBuilder.PerAsset a] = some [[]] := by
    simp [optionMapList, hgroup]
  simp only [MenuBuilder.build, hsplit, optionMapList_append, h1]
  cases optionMapList (MenuButtonsBuilder.build io) pre <;>
    cases optionMapList (MenuButtonsBuilder.build io) post <;>
      simp [List.flatten_append]

/-- C2 witness: with a failing source, a template made of a fixed row, a
generator and another fixed row resolves to just the two fixed rows. -/
theorem c2_enumeration_failure_absorbed_witness :
    ioFail AssetButtonAction.Play.assets_path = none ∧
    MenuButtonsBuilder.build ioFail (.PerAsset .Play) = some [] ∧
    MenuBuilder.build ioFail
        (.mk ⟨"Choose a world", .Normal⟩
          ([.Row [MenuButton.mk "Back" Action.Back]] ++
            MenuButtonsBuilder.PerAsset .Play ::
              [.Row [MenuButton.mk "New world" Action.Back]]))
      = MenuBuilder.build ioFail
          (.mk ⟨"Choose a world", .Normal⟩
            ([.Row [MenuButton.mk "Back" Action.Back]] ++
              [.Row [MenuButton.mk "New world" Action.Back]])) :=
  ⟨rfl,
    (c2_enumeration_failure_absorbed AssetButtonAction.Play ioFail
      ⟨"Choose a world", .Normal⟩ [.Row [MenuButton.mk "Back" Action.Back]]
      [.Row [MenuButton.mk "New world" Action.Back]] rfl).1,
    (c2_enumeration_failure_absorbed AssetButtonAction.Play ioFail
      ⟨"Choose a world", .Normal⟩ [.Row [MenuButton.mk "Back" Action.Back]]
      [.Row [MenuButton.mk "New world" Action.Back]] rfl).2⟩

/-- C3 counterexample: the claim says the button's action is the action
kind applied to the base path joined with the discovered *name*.  When the
enumeration source yields the path `worlds/alpha` (as Bevy's
`read_directory` does: relative to the asset root, directory prefix
included), the code instead joins the base path with the *whole yielded
path*: the button text is the file name `alpha`, but the action's path is
`worlds/worlds/alpha`, not the claimed `worlds/alpha`. -/
theorem c3_counterexample :
    MenuButtonsBuilder.build ioNested (.PerAsset .Play)
      = some [[MenuButton.mk "alpha" (Action.Play ["worlds", "worlds", "alpha"])]] ∧
    MenuButtonsBuilder.build ioNested (.PerAsset .Play)
      ≠ some [[MenuButton.mk "alpha" (AssetButtonAction.Play.action ["alpha"])]] := by
  refine ⟨rfl, fun h => ?_⟩
  simp [MenuButtonsBuilder.build, ioNested, optionMapList, file_name,
    AssetButtonAction.action, AssetButtonAction.assets_path, path_join] at h

/-- C3 (amended): when the enumeration source succeeds, each yielded path
becomes exactly one single-button row, in yield order; the button text is
the yielded path's file name, and the action is the group's action kind
applied to the base path joined with the *whole yielded path* (which equals
the base path joined with the discovered name only when the yield is a bare
name). -/
theorem c3_generated_rows (a : AssetButtonAction) (io : AssetIo)
    (ps : List PathC) (ns : List String) (h : io a.assets_path = some ps)
    (h2 : ps.map file_name = ns.map some) :
    MenuButtonsBuilder.build io (.PerAsset a)
      = some ((ps.zip ns).map fun pn => [MenuButton.mk pn.2 (a.action pn.1)]) := by
  simp only [MenuButtonsBuilder.build, h, Option.getD_some]
  clear h
  induction ps generalizing ns with
  | nil =>
    cases ns with
    | nil => rfl
    | cons n ns => simp at h2
  | cons p ps ih =>
    cases ns with
    | nil => simp at h2
    | cons n ns =>
      simp only [List.map_cons, List.cons.injEq] at h2
      obtain ⟨hp, hps⟩ := h2
      simp [optionMapList, hp, ih ns hps]

/-- C3 witness: the source yielding `worlds/alpha` produces one row with
text `alpha` and action `Play("worlds/worlds/alpha")`. -/
theorem c3_generated_rows_witness :
    ioNested AssetButtonAction.Play.assets_path = some [["worlds", "alpha"]] ∧
    ([["worlds", "alpha"]] : List PathC).map file_name = ["alpha"].map some ∧
    MenuButtonsBuilder.build ioNested (.PerAsset .Play)
      = some (([["worlds", "alpha"]].zip ["alpha"]).map fun pn =>
          [MenuButton.mk pn.2 (AssetButtonAction.Play.action pn.1)]) :=
  ⟨rfl, rfl, c3_generated_rows AssetButtonAction.Play ioNested _ _ rfl rfl⟩

/-- C9: for `Push` and `Enter`, the destructive step (hiding the previous
top) only happens after the new screen is successfully realized: when
building the new menu fails, `init_menu` aborts before any mutation, so
from every pre-transition state nothing is hidden and nothing is appended. -/
theorem c9_failed_build_no_mutation (io : AssetIo) (m : MenuBuilder)
    (s : NavState) (h : MenuBuilder.build io m = none) :
    init_menu io m s = none := by
  simp [init_menu, h]

/-- C9 witness: building a generator menu over a source yielding `..`
fails, and `init_menu` from the depth-2 state applies no transition. -/
theorem c9_failed_build_no_mutation_witness :
    MenuBuilder.build ioDotDot mWorlds = none ∧
    init_menu ioDotDot mWorlds sDepth2 = none :=
  ⟨rfl, c9_failed_build_no_mutation ioDotDot mWorlds sDepth2 rfl⟩

/-- C10: resolving a `PerAsset` group is total exactly under the
precondition that every yielded path has a file name: if all yields have a
file name the build succeeds, and if any yielded path has none (for
example `..`) the `file_name().unwrap()` panics, aborting the build. -/
theorem c10_file_name_totality (a : AssetButtonAction) (io : AssetIo)
    (ps : List PathC) (h : io a.assets_path = some ps) :
    ((∀ p ∈ ps, (file_name p).isSome = true) →
      (MenuButtonsBuilder.build io (.PerAsset a)).isSome = true) ∧
    (∀ p ∈ ps, file_name p = none →
      MenuButtonsBuilder.build io (.PerAsset a) = none) := by
  constructor
  · intro hall
    simp only [MenuButtonsBuilder.build, h, Option.getD_some]
    refine optionMapList_isSome _ _ fun p hp => ?_
    cases hfp : file_name p with
    | none =>
      have hcontr := hall p hp
      rw [hfp] at hcontr
      simp at hcontr
    | some n => simp
  · intro p hp hnone
    simp only [MenuButtonsBuilder.build, h, Option.getD_some]
    exact optionMapList_none _ _ p hp (by simp [hnone])

/-! ## Navigation lemmas -/

lemma setVis_eq (pre post : List (Nat × Bool)) (t : Nat) (v b : Bool)
    (h : t ∉ pre.map Prod.fst) :
    setVis t b (pre ++ (t, v) :: post) = some (pre ++ (t, b) :: post) := by
  induction pre with
  | nil => simp [setVis]
  | cons q pre ih =>
    simp only [List.map_cons, List.mem_cons, not_or] at h
    simp [setVis, Ne.symm h.1, ih h.2]

lemma removeScreen_eq (pre post : List (Nat × Bool)) (t : Nat) (v : Bool)
    (h : t ∉ pre.map Prod.fst) :
    removeScreen t (pre ++ (t, v) :: post) = some (pre ++ post) := by
  induction pre with
  | nil => simp [removeScreen]
  | cons q pre ih =>
    simp only [List.map_cons, List.mem_cons, not_or] at h
    simp [removeScreen, Ne.symm h.1, ih h.2]

lemma visShape_concat (pre : List (Nat × Bool)) (t : Nat)
    (hhid : ∀ p ∈ pre, p.2 = false) : visShape (pre ++ [(t, true)]) = true := by
  induction pre with
  | nil => rfl
  | cons q pre ih =>
    have hq : q.2 = false := hhid q (by simp)
    have ih2 := ih fun p hp => hhid p (by simp [hp])
    cases pre with
    | nil => simp [visShape, hq]
    | cons q2 pre2 => simpa [visShape, hq] using ih2

lemma visShape_elim (l : List (Nat × Bool)) (h : visShape l = true) :
    ∃ pre t, l = pre ++ [(t, true)] ∧ ∀ p ∈ pre, p.2 = false := by
  induction l with
  | nil => simp [visShape] at h
  | cons p rest ih =>
    cases rest with
    | nil =>
      have h2 : p.2 = true := h
      refine ⟨[], p.1, ?_, by simp⟩
      rw [← h2]
      rfl
    | cons q rest' =>
      rw [show visShape (p :: q :: rest') = (!p.2 && visShape (q :: rest'))
        from rfl] at h
      simp only [Bool.and_eq_true, Bool.not_eq_true'] at h
      obtain ⟨pre, t, heq, hpre⟩ := ih h.2
      refine ⟨p :: pre, t, by simp [heq], ?_⟩
      intro x hx
      rcases List.mem_cons.mp hx with rfl | hx2
      · exact h.1
      · exact hpre x hx2

lemma inv_navInit : Inv navInit :=
  ⟨by simp [navInit], by simp [navInit], Or.inr ⟨rfl, rfl⟩, by simp [navInit]⟩

lemma inv_none (s : NavState) (hInv : Inv s) (hes : s.menuEs = none) :
    s.screens = [] := by
  obtain ⟨-, -, hor, -⟩ := hInv
  rcases hor with hsome | ⟨-, hnil⟩
  · rw [hes] at hsome; cases hsome
  · exact hnil

lemma inv_some (s : NavState) (es : List Nat) (hInv : Inv s)
    (hes : s.menuEs = some es) :
    ∃ pre t, s.screens = pre ++ [(t, true)] ∧ es = pre.map Prod.fst ++ [t] ∧
      (∀ p ∈ pre, p.2 = false) ∧ t ∉ pre.map Prod.fst ∧
      (∀ p ∈ pre, p.1 < s.nextId) ∧ t < s.nextId ∧
      (pre.map Prod.fst).Nodup := by
  obtain ⟨hlt, hnd, hor, hvis⟩ := hInv
  rcases hor with hsome | ⟨hnone, -⟩
  · have hv := hvis (by rw [hes]; rfl)
    obtain ⟨pre, t, hscr, hpre⟩ := visShape_elim _ hv
    have hmap : s.screens.map Prod.fst = pre.map Prod.fst ++ [t] := by
      simp [hscr]
    have hes2 : es = pre.map Prod.fst ++ [t] := by
      injection (hes.symm.trans hsome) with h2
      rw [h2, hmap]
    have hnd2 : (pre.map Prod.fst ++ [t]).Nodup := by rw [← hmap]; exact hnd
    have hsplit : (pre.map Prod.fst).Nodup ∧ t ∉ pre.map Prod.fst := by
      simpa [List.nodup_append] using hnd2
    refine ⟨pre, t, hscr, hes2, hpre, hsplit.2, ?_, ?_, hsplit.1⟩
    · intro p hp
      exact hlt p (by rw [hscr]; exact List.mem_append_left _ hp)
    · exact hlt (t, true) (by rw [hscr]; exact List.mem_append_right _ (by simp))
  · rw [hes] at hnone; cases hnone

lemma inv_intro (n : Nat) (pre : List (Nat × Bool)) (t : Nat)
    (hlt : ∀ p ∈ pre, p.1 < n) (hltt : t < n)
    (hnd : (pre.map Prod.fst ++ [t]).Nodup)
    (hhid : ∀ p ∈ pre, p.2 = false) :
    Inv ⟨n, pre ++ [(t, true)], some (pre.map Prod.fst ++ [t])⟩ := by
  refine ⟨?_, by simpa using hnd, Or.inl (by simp),
    fun _ => visShape_concat pre t hhid⟩
  intro p hp
  rcases List.mem_append.mp hp with hm | hm
  · exact hlt p hm
  · simp only [List.mem_singleton] at hm; rw [hm]; exact hltt

lemma init_menu_enter (io : AssetIo) (m : MenuBuilder) (s : NavState)
    (menu : Menu) (hb : MenuBuilder.build io m = some menu)
    (hes : s.menuEs = none) :
    init_menu io m s =
      some (⟨s.nextId + 1, s.screens ++ [(s.nextId, true)], some [s.nextId]⟩,
        [UiEffect.spawn s.nextId]) := by
  simp [init_menu, hb, hes]

lemma init_menu_push (io : AssetIo) (m : MenuBuilder) (s : NavState)
    (menu : Menu) (ids : List Nat) (t : Nat) (pre : List (Nat × Bool))
    (hb : MenuBuilder.build io m = some menu)
    (hes : s.menuEs = some (ids ++ [t]))
    (hscr : s.screens = pre ++ [(t, true)])
    (ht : t ∉ pre.map Prod.fst) :
    init_menu io m s =
      some (⟨s.nextId + 1, pre ++ [(t, false), (s.nextId, true)],
        some ((ids ++ [t]) ++ [s.nextId])⟩,
        [UiEffect.spawn s.nextId, UiEffect.hide t]) := by
  have hlast : (ids ++ [t]).getLast? = some t := List.getLast?_concat _
  have hsv : setVis t false (pre ++ (t, true) :: [(s.nextId, true)])
      = some (pre ++ (t, false) :: [(s.nextId, true)]) :=
    setVis_eq pre [(s.nextId, true)] t true false ht
  simp [init_menu, hb, hes, hscr, hlast, hsv]

lemma term_menu_last (s : NavState) (t : Nat)
    (hes : s.menuEs = some [t]) (hscr : s.screens = [(t, true)]) :
    term_menu s = some (⟨s.nextId, [], none⟩, [UiEffect.despawn t]) := by
  simp [term_menu, hes, hscr, removeScreen]

lemma term_menu_pop (s : NavState) (pre2 : List (Nat × Bool)) (t2 t : Nat)
    (hes : s.menuEs = some ((pre2.map Prod.fst ++ [t2]) ++ [t]))
    (hscr : s.screens = (pre2 ++ [(t2, false)]) ++ [(t, true)])
    (ht : t ∉ (pre2 ++ [(t2, false)]).map Prod.fst)
    (ht2 : t2 ∉ pre2.map Prod.fst) :
    term_menu s =
      some (⟨s.nextId, pre2 ++ [(t2, true)], some (pre2.map Prod.fst ++ [t2])⟩,
        [UiEffect.despawn t, UiEffect.reveal t2]) := by
  have hlast : ((pre2.map Prod.fst ++ [t2]) ++ [t]).getLast? = some t :=
    List.getLast?_concat _
  have hrm : removeScreen t ((pre2 ++ [(t2, false)]) ++ (t, true) :: [])
      = some ((pre2 ++ [(t2, false)]) ++ []) :=
    removeScreen_eq (pre2 ++ [(t2, false)]) [] t true ht
  have hdrop : ((pre2.map Prod.fst ++ [t2]) ++ [t]).dropLast
      = pre2.map Prod.fst ++ [t2] := List.dropLast_concat
  have hlast2 : (pre2.map Prod.fst ++ [t2]).getLast? = some t2 :=
    List.getLast?_concat _
  have hsv : setVis t2 true (pre2 ++ (t2, false) :: [])
      = some (pre2 ++ (t2, true) :: []) :=
    setVis_eq pre2 [] t2 false true ht2
  simp only [List.append_nil, List.append_assoc, List.singleton_append,
    List.cons_append, List.nil_append] at hrm hsv
  simp [term_menu, hes, hscr, hlast, hrm, hdrop, hlast2, hsv]

lemma nodup_concat (l : List Nat) (a : Nat) (h1 : l.Nodup) (h2 : a ∉ l) :
    (l ++ [a]).Nodup := by
  simp [List.nodup_append]
  exact ⟨h1, h2⟩

lemma notMem_ids (pre : List (Nat × Bool)) (n : Nat)
    (hlt : ∀ p ∈ pre, p.1 < n) : n ∉ pre.map Prod.fst := by
  intro hm
  obtain ⟨q, hq, hq2⟩ := List.mem_map.mp hm
  exact Nat.lt_irrefl n (hq2 ▸ hlt q hq)

lemma init_menu_inv (io : AssetIo) (m : MenuBuilder) (s s' : NavState)
    (effs : List UiEffect) (hInv : Inv s)
    (h : init_menu io m s = some (s', effs)) : Inv s' := by
  cases hb : MenuBuilder.build io m with
  | none => simp [init_menu, hb] at h
  | some menu =>
    cases hes : s.menuEs with
    | none =>
      rw [init_menu_enter io m s menu hb hes] at h
      simp only [Option.some.injEq, Prod.mk.injEq] at h
      obtain ⟨h1, -⟩ := h
      rw [← h1]
      have hscr : s.screens = [] := inv_none s hInv hes
      have := inv_intro (s.nextId + 1) [] s.nextId (by simp)
        (Nat.lt_succ_self _) (by simp) (by simp)
      simpa [hscr] using this
    | some es =>
      obtain ⟨pre, t, hscr, hes2, hpre, ht, hlt, hltt, hnd⟩ :=
        inv_some s es hInv hes
      rw [hes2] at hes
      rw [init_menu_push io m s menu (pre.map Prod.fst) t pre hb hes hscr ht]
        at h
      simp only [Option.some.injEq, Prod.mk.injEq] at h
      obtain ⟨h1, -⟩ := h
      rw [← h1]
      have hnd2 : ((pre ++ [(t, false)]).map Prod.fst ++ [s.nextId]).Nodup := by
        have nd1 : (pre.map Prod.fst ++ [t]).Nodup := nodup_concat _ _ hnd ht
        have hmem : s.nextId ∉ pre.map Prod.fst ++ [t] := by
          intro hm
          rcases List.mem_append.mp hm with hm | hm
          · exact notMem_ids pre s.nextId hlt hm
          · simp only [List.mem_singleton] at hm
            rw [hm] at hltt
            exact Nat.lt_irrefl _ hltt
        simpa using nodup_concat _ _ nd1 hmem
      have := inv_intro (s.nextId + 1) (pre ++ [(t, false)]) s.nextId
        (by intro p hp
            rcases List.mem_append.mp hp with hm | hm
            · exact Nat.lt_succ_of_lt (hlt p hm)
            · simp only [List.mem_singleton] at hm
              rw [hm]
              exact Nat.lt_succ_of_lt hltt)
        (Nat.lt_succ_self _)
        hnd2
        (by intro p hp
            rcases List.mem_append.mp hp with hm | hm
            · exact hpre p hm
            · simp only [List.mem_singleton] at hm
              rw [hm])
      simpa using this

lemma term_menu_spec (s : NavState) (pre : List (Nat × Bool)) (t : Nat)
    (hscr : s.screens = pre ++ [(t, true)])
    (hes : s.menuEs = some (pre.map Prod.fst ++ [t]))
    (hpre : ∀ p ∈ pre, p.2 = false) (ht : t ∉ pre.map Prod.fst)
    (hnd : (pre.map Prod.fst).Nodup) :
    (pre = [] ∧
      term_menu s = some (⟨s.nextId, [], none⟩, [UiEffect.despawn t])) ∨
    (∃ pre2 t2, pre = pre2 ++ [(t2, false)] ∧
      term_menu s = some (⟨s.nextId, pre2 ++ [(t2, true)],
        some (pre2.map Prod.fst ++ [t2])⟩,
        [UiEffect.despawn t, UiEffect.reveal t2])) := by
  rcases List.eq_nil_or_concat pre with rfl | ⟨pre2, q2, hpre2⟩
  · left
    exact ⟨rfl, term_menu_last s t (by simpa using hes) (by simpa using hscr)⟩
  · right
    rw [List.concat_eq_append] at hpre2
    have hq2f : q2.2 = false :=
      hpre q2 (by rw [hpre2]; exact List.mem_append_right _ (by simp))
    have hmapfst : pre.map Prod.fst = pre2.map Prod.fst ++ [q2.1] := by
      rw [hpre2]; simp
    refine ⟨pre2, q2.1, by rw [hpre2, ← hq2f], ?_⟩
    apply term_menu_pop s pre2 q2.1 t
    · rw [hes, hmapfst]
    · rw [hscr, hpre2, ← hq2f]
    · rw [hmapfst] at ht
      simpa using ht
    · rw [hmapfst] at hnd
      have hnd2 : (pre2.map Prod.fst).Nodup ∧ q2.1 ∉ pre2.map Prod.fst := by
        simpa [List.nodup_append] using hnd
      exact hnd2.2

lemma term_menu_inv (s s' : NavState) (effs : List UiEffect) (hInv : Inv s)
    (h : term_menu s = some (s', effs)) : Inv s' := by
  cases hes : s.menuEs with
  | none => simp [term_menu, hes] at h
  | some es =>
    obtain ⟨pre, t, hscr, hes2, hpre, ht, hlt, hltt, hnd⟩ :=
      inv_some s es hInv hes
    rw [hes2] at hes
    rcases term_menu_spec s pre t hscr hes hpre ht hnd with
      ⟨hnil, hterm⟩ | ⟨pre2, t2, hpre2, hterm⟩
    · rw [hterm] at h
      simp only [Option.some.injEq, Prod.mk.injEq] at h
      obtain ⟨h1, -⟩ := h
      rw [← h1]
      exact ⟨by simp, by simp, Or.inr ⟨rfl, rfl⟩, by simp⟩
    · rw [hterm] at h
      simp only [Option.some.injEq, Prod.mk.injEq] at h
      obtain ⟨h1, -⟩ := h
      rw [← h1]
      have hlt2 : ∀ p ∈ pre2, p.1 < s.nextId := fun p hp =>
        hlt p (by rw [hpre2]; exact List.mem_append_left _ hp)
      have hltt2 : t2 < s.nextId :=
        hlt (t2, false) (by rw [hpre2]; exact List.mem_append_right _ (by simp))
      have hpre3 : ∀ p ∈ pre2, p.2 = false := fun p hp =>
        hpre p (by rw [hpre2]; exact List.mem_append_left _ hp)
      have hnd3 : (pre2.map Prod.fst ++ [t2]).Nodup := by
        rw [hpre2] at hnd
        simpa using hnd
      exact inv_intro s.nextId pre2 t2 hlt2 hltt2 hnd3 hpre3

lemma stepOp_inv (io : AssetIo) (s : NavState) (op : NavOp) (s' : NavState)
    (hInv : Inv s) (h : stepOp io s op = some s') : Inv s' := by
  cases op with
  | init m =>
    simp only [stepOp, Option.map_eq_some'] at h
    obtain ⟨⟨s1, effs⟩, h1, h2⟩ := h
    rw [← h2]
    exact init_menu_inv io m s s1 effs hInv h1
  | term =>
    simp only [stepOp, Option.map_eq_some'] at h
    obtain ⟨⟨s1, effs⟩, h1, h2⟩ := h
    rw [← h2]
    exact term_menu_inv s s1 effs hInv h1

lemma runOps_inv (io : AssetIo) : ∀ (ops : List NavOp) (s s' : NavState),
    Inv s → runOps io ops s = some s' → Inv s' := by
  intro ops
  induction ops with
  | nil =>
    intro s s' h hr
    simp only [runOps, Option.some.injEq] at hr
    rwa [← hr]
  | cons op ops ih =>
    intro s s' h hr
    simp only [runOps, Option.bind_eq_some] at hr
    obtain ⟨s1, h1, h2⟩ := hr
    exact ih s1 s' (stepOp_inv io s op s1 h h1) h2

/-- C4: after any successful sequence of Enter/Push (`init_menu`) and Pop
(`term_menu`) transitions from the initial world, at most one screen entity
is visible, any visible screen is the top of the `MenuEs` stack, and when
the `MenuEs` resource has been removed (popping the last entry) no screen
entity remains live — each was destroyed by its pop. -/
theorem c4_stack_invariant (io : AssetIo) (ops : List NavOp) (s : NavState)
    (h : runOps io ops navInit = some s) :
    (s.screens.filter fun p => p.2).length ≤ 1 ∧
    (∀ p ∈ s.screens, p.2 = true →
      ∃ es, s.menuEs = some es ∧ es.getLast? = some p.1) ∧
    (s.menuEs = none → s.screens = []) := by
  have hInv : Inv s := runOps_inv io ops navInit s inv_navInit h
  cases hes : s.menuEs with
  | none =>
    have hscr := inv_none s hInv hes
    simp [hscr]
  | some es =>
    obtain ⟨pre, t, hscr, hes2, hpre, ht, hlt, hltt, hnd⟩ :=
      inv_some s es hInv hes
    refine ⟨?_, ?_, by simp⟩
    · rw [hscr, List.filter_append]
      have hfil : pre.filter (fun p => p.2) = [] :=
        List.filter_eq_nil_iff.mpr fun p hp => by simp [hpre p hp]
      simp [hfil]
    · intro p hp hvis
      rw [hscr] at hp
      rcases List.mem_append.mp hp with hm | hm
      · rw [hpre p hm] at hvis
        cases hvis
      · simp only [List.mem_singleton] at hm
        refine ⟨es, rfl, ?_⟩
        rw [hm, hes2]
        exact List.getLast?_concat _

/-- C4 witness: a concrete Enter, Push, Pop, Pop run ends with no `MenuEs`
resource and no live screen entity. -/
theorem c4_stack_invariant_witness :
    runOps ioEmpty [NavOp.init mRoot, NavOp.init mRoot, NavOp.term, NavOp.term]
        navInit = some ⟨2, [], none⟩ ∧
    (((⟨2, [], none⟩ : NavState).screens.filter fun p => p.2).length ≤ 1 ∧
      (∀ p ∈ (⟨2, [], none⟩ : NavState).screens, p.2 = true →
        ∃ es, (⟨2, [], none⟩ : NavState).menuEs = some es ∧
          es.getLast? = some p.1) ∧
      ((⟨2, [], none⟩ : NavState).menuEs = none →
        (⟨2, [], none⟩ : NavState).screens = [])) :=
  ⟨rfl, c4_stack_invariant ioEmpty
    [NavOp.init mRoot, NavOp.init mRoot, NavOp.term, NavOp.term]
    ⟨2, [], none⟩ rfl⟩

/-- C5: from any invariant-satisfying Active state, a Push (`init_menu`
over an existing `MenuEs`) hides the previous top screen but does not
destroy it and leaves it in the stack (no despawn effect at all), while a
Pop (`term_menu`) despawns exactly the top screen and, when a previous
entry remains, makes that entry visible again without rebuilding it (same
entity id, no new entity allocated). -/
theorem c5_push_hides_pop_destroys (io : AssetIo) (m : MenuBuilder)
    (s : NavState) (es : List Nat) (top : Nat) (hInv : Inv s)
    (hes : s.menuEs = some es) (htop : es.getLast? = some top) :
    (∀ s' effs, init_menu io m s = some (s', effs) →
      s'.menuEs = some (es ++ [s.nextId]) ∧
      (top, false) ∈ s'.screens ∧
      ∀ e, UiEffect.despawn e ∉ effs) ∧
    (∀ s' effs, term_menu s = some (s', effs) →
      s'.screens.map Prod.fst = (s.screens.map Prod.fst).dropLast ∧
      top ∉ s'.screens.map Prod.fst ∧
      UiEffect.despawn top ∈ effs ∧
      s'.nextId = s.nextId ∧
      ∀ t2, es.dropLast.getLast? = some t2 →
        s'.menuEs = some es.dropLast ∧ (t2, true) ∈ s'.screens) := by
  obtain ⟨pre, t, hscr, hes2, hpre, ht, hlt, hltt, hnd⟩ :=
    inv_some s es hInv hes
  have htop2 : top = t := by
    rw [hes2, List.getLast?_concat] at htop
    injection htop with htop3
    exact htop3.symm
  subst htop2
  constructor
  · intro s' effs h
    cases hb : MenuBuilder.build io m with
    | none => simp [init_menu, hb] at h
    | some menu =>
      rw [hes2] at hes
      rw [init_menu_push io m s menu (pre.map Prod.fst) top pre hb hes hscr ht]
        at h
      simp only [Option.some.injEq, Prod.mk.injEq] at h
      obtain ⟨h1, h2⟩ := h
      refine ⟨?_, ?_, ?_⟩
      · rw [← h1, hes2]
      · rw [← h1]
        simp
      · intro e
        rw [← h2]
        simp
  · intro s' effs h
    rw [hes2] at hes
    rcases term_menu_spec s pre top hscr hes hpre ht hnd with
      ⟨hnil, hterm⟩ | ⟨pre2, t2, hpre2, hterm⟩
    · rw [hterm] at h
      simp only [Option.some.injEq, Prod.mk.injEq] at h
      obtain ⟨h1, h2⟩ := h
      subst hnil
      refine ⟨?_, ?_, ?_, ?_, ?_⟩
      · rw [← h1, hscr]
        simp
      · rw [← h1]
        simp
      · rw [← h2]
        simp
      · rw [← h1]
      · intro t2 hcontra
        rw [hes2] at hcontra
        simp at hcontra
    · rw [hterm] at h
      simp only [Option.some.injEq, Prod.mk.injEq] at h
      obtain ⟨h1, h2⟩ := h
      have hdrop : es.dropLast = pre.map Prod.fst := by
        rw [hes2]
        exact List.dropLast_concat
      have hmapfst : pre.map Prod.fst = pre2.map Prod.fst ++ [t2] := by
        rw [hpre2]
        simp
      refine ⟨?_, ?_, ?_, ?_, ?_⟩
      · rw [← h1, hscr, hpre2]
        simp
      · rw [← h1]
        rw [hmapfst] at ht
        simpa using ht
      · rw [← h2]
        simp
      · rw [← h1]
      · intro t2' ht2'
        rw [hdrop, hmapfst, List.getLast?_concat] at ht2'
        injection ht2' with ht2''
        subst ht2''
        constructor
        · rw [← h1, hdrop, hmapfst]
        · rw [← h1]
          simp

/-- C5 witness: from the concrete depth-2 state, the push and pop
conclusions hold. -/
theorem c5_push_hides_pop_destroys_witness :
    Inv sDepth2 ∧ sDepth2.menuEs = some [0, 1] ∧
      ([0, 1] : List Nat).getLast? = some 1 ∧
    ((∀ s' effs, init_menu ioEmpty mRoot sDepth2 = some (s', effs) →
      s'.menuEs = some ([0, 1] ++ [sDepth2.nextId]) ∧
      (1, false) ∈ s'.screens ∧
      ∀ e, UiEffect.despawn e ∉ effs) ∧
    (∀ s' effs, term_menu sDepth2 = some (s', effs) →
      s'.screens.map Prod.fst = (sDepth2.screens.map Prod.fst).dropLast ∧
      1 ∉ s'.screens.map Prod.fst ∧
      UiEffect.despawn 1 ∈ effs ∧
      s'.nextId = sDepth2.nextId ∧
      ∀ t2, ([0, 1] : List Nat).dropLast.getLast? = some t2 →
        s'.menuEs = some ([0, 1] : List Nat).dropLast ∧
          (t2, true) ∈ s'.screens)) :=
  ⟨by decide, rfl, rfl,
    c5_push_hides_pop_destroys ioEmpty mRoot sDepth2 [0, 1] 1 (by decide)
      rfl rfl⟩

lemma termIter_all (n : Nat) : ∀ s es, Inv s → s.menuEs = some es →
    es.length = n →
    ∃ s', termIter n s = some s' ∧ s'.menuEs = none ∧ s'.screens = [] := by
  induction n with
  | zero =>
    intro s es hInv hes hlen
    obtain ⟨pre, t, -, hes2, -, -, -, -, -⟩ := inv_some s es hInv hes
    rw [hes2] at hlen
    simp at hlen
  | succ n ih =>
    intro s es hInv hes hlen
    obtain ⟨pre, t, hscr, hes2, hpre, ht, hlt, hltt, hnd⟩ :=
      inv_some s es hInv hes
    rw [hes2] at hes
    rcases term_menu_spec s pre t hscr hes hpre ht hnd with
      ⟨hnil, hterm⟩ | ⟨pre2, t2, hpre2, hterm⟩
    · have hlen2 : n = 0 := by
        rw [hes2, hnil] at hlen
        simpa using hlen.symm
      refine ⟨⟨s.nextId, [], none⟩, ?_, rfl, rfl⟩
      show ((term_menu s).map Prod.fst).bind (termIter n) = some _
      rw [hterm, hlen2]
      rfl
    · have hInv1 : Inv (⟨s.nextId, pre2 ++ [(t2, true)],
          some (pre2.map Prod.fst ++ [t2])⟩ : NavState) :=
        term_menu_inv s _ _ hInv hterm
      have hlen1 : (pre2.map Prod.fst ++ [t2]).length = n := by
        rw [hes2, hpre2] at hlen
        simp at hlen ⊢
        omega
      obtain ⟨s', hs', h1, h2⟩ := ih _ _ hInv1 rfl hlen1
      refine ⟨s', ?_, h1, h2⟩
      show ((term_menu s).map Prod.fst).bind (termIter n) = some s'
      rw [hterm]
      simpa using hs'

/-- C6 (amended): pressing a button bound to `Action::Play(p)` from any
invariant-satisfying stack of depth n ≥ 1 requests
`state.replace(GameState::Game)` and inserts the payload-less
`OpeningGame` marker; the navigation effect of the replace destroys all n
screen entities and removes the `MenuEs` resource (Empty state).  The path
payload p itself is discarded by the dispatcher, not handed to the
surrounding application. -/
theorem c6_replace_teardown (p : PathC) (s : NavState) (es : List Nat)
    (hInv : Inv s) (hes : s.menuEs = some es) (_hn : 1 ≤ es.length) :
    button_action Interaction.Clicked (Action.Play p) =
      { color := ButtonColor.Press, insertOpeningGame := true,
        stateOp := some (StateOp.replace GameState.Game) } ∧
    ∃ s', replaceContext s = some s' ∧ s'.menuEs = none ∧ s'.screens = [] := by
  refine ⟨rfl, ?_⟩
  obtain ⟨s', h1, h2, h3⟩ := termIter_all es.length s es hInv hes rfl
  refine ⟨s', ?_, h2, h3⟩
  simp only [replaceContext, hes]
  exact h1

/-- C6 witness: from the concrete depth-2 state, the teardown conclusions
hold with payload `worlds/alpha`. -/
theorem c6_replace_teardown_witness :
    Inv sDepth2 ∧ sDepth2.menuEs = some [0, 1] ∧
      1 ≤ ([0, 1] : List Nat).length ∧
    (button_action Interaction.Clicked (Action.Play ["worlds", "alpha"]) =
      { color := ButtonColor.Press, insertOpeningGame := true,
        stateOp := some (StateOp.replace GameState.Game) } ∧
    ∃ s', replaceContext sDepth2 = some s' ∧ s'.menuEs = none ∧
      s'.screens = []) :=
  ⟨by decide, rfl, by decide,
    c6_replace_teardown ["worlds", "alpha"] sDepth2 [0, 1] (by decide) rfl
      (by decide)⟩

/-- C6 counterexample: the claim says the domain payload p is handed to
the surrounding application, but `button_action` discards the `Play`
payload: its complete output — color, inserted resources, state operation —
is identical for two distinct payloads, so no part of the dispatch carries
p (the inserted `OpeningGame` marker is payload-less). -/
theorem c6_payload_discarded :
    button_action Interaction.Clicked (Action.Play ["worlds", "alpha"]) =
      button_action Interaction.Clicked (Action.Play ["worlds", "beta"]) ∧
    (["worlds", "alpha"] : PathC) ≠ ["worlds", "beta"] :=
  ⟨rfl, by decide⟩

/-- C7 (code bug): the claim says a pressed Batch (`Action::Set`) button
applies each contained action in order; in the code `Action::Set` falls
into `button_action`'s `_ => ()` TODO arm, so pressing
`Set([ImportGame, Rebuild])` performs no effect at all — no resource
insertion, no state operation, no forwarding of either signal; only the
press color is painted.  The individual `ImportGame` and `Rebuild` arms
are equally unimplemented. -/
theorem c7_batch_todo_noop :
    button_action Interaction.Clicked
        (Action.Set [Action.ImportGame, Action.Rebuild]) =
      { color := ButtonColor.Press } ∧
    button_action Interaction.Clicked Action.ImportGame =
      { color := ButtonColor.Press } ∧
    button_action Interaction.Clicked Action.Rebuild =
      { color := ButtonColor.Press } :=
  ⟨rfl, rfl, rfl⟩

lemma clickDispatches_held (ticks : List Interaction)
    (h : ∀ c ∈ ticks, c = Interaction.Clicked) :
    clickDispatches (some Interaction.Clicked) ticks = 0 := by
  induction ticks with
  | nil => rfl
  | cons c rest ih =>
    have hc : c = Interaction.Clicked := h c (by simp)
    subst hc
    simp [clickDispatches, changedGate, ih fun x hx => h x (by simp [hx])]

/-- C8: dispatch is edge-triggered: over any run of ticks during which a
button stays `Clicked` (held, no release in between), the
`Changed<Interaction>` filter on `button_action`'s query admits the button
at most once — exactly once when the run starts at a fresh press edge — so
the bound action's effect is applied at most once, at the edge, and never
re-applied while held. -/
theorem c8_edge_triggered (prev : Option Interaction)
    (ticks : List Interaction) (h : ∀ c ∈ ticks, c = Interaction.Clicked) :
    clickDispatches prev ticks ≤ 1 ∧
    (prev ≠ some Interaction.Clicked → ticks ≠ [] →
      clickDispatches prev ticks = 1) := by
  cases ticks with
  | nil => exact ⟨by simp [clickDispatches], fun _ hc => absurd rfl hc⟩
  | cons c rest =>
    have hc : c = Interaction.Clicked := h c (by simp)
    subst hc
    have hrest := clickDispatches_held rest fun x hx => h x (by simp [hx])
    constructor
    · simp only [clickDispatches, hrest, Nat.add_zero]
      split <;> omega
    · intro hprev _hne
      simp only [clickDispatches, hrest, Nat.add_zero]
      rw [if_pos]
      exact ⟨by simp [changedGate]; exact hprev, by trivial⟩

/-- C8 witness: a press held for three ticks dispatches exactly once. -/
theorem c8_edge_triggered_witness :
    (∀ c ∈ [Interaction.Clicked, Interaction.Clicked, Interaction.Clicked],
      c = Interaction.Clicked) ∧
    clickDispatches none
      [Interaction.Clicked, Interaction.Clicked, Interaction.Clicked] ≤ 1 ∧
    ((none : Option Interaction) ≠ some Interaction.Clicked →
      ([Interaction.Clicked, Interaction.Clicked, Interaction.Clicked] :
        List Interaction) ≠ [] →
      clickDispatches none
        [Interaction.Clicked, Interaction.Clicked, Interaction.Clicked] = 1) :=
  ⟨by decide,
    (c8_edge_triggered none
      [Interaction.Clicked, Interaction.Clicked, Interaction.Clicked]
      (by decide)).1,
    (c8_edge_triggered none
      [Interaction.Clicked, Interaction.Clicked, Interaction.Clicked]
      (by decide)).2⟩

/-- C10 witness: the source yielding `..` makes the build of the worlds
generator group panic. -/
theorem c10_file_name_totality_witness :
    ioDotDot AssetButtonAction.Play.assets_path = some [[".."]] ∧
    file_name [".."] = none ∧
    MenuButtonsBuilder.build ioDotDot (.PerAsset .Play) = none :=
  ⟨rfl, rfl,
    (c10_file_name_totality AssetButtonAction.Play ioDotDot [[".."]] rfl).2
      [".."] (by simp) rfl⟩

end Blockmod
